import Mathlib

/-!
The batch driver of the dynamic-time-warping tool (dtw.cpp)

A shallow embedding of `src/dtw.cpp`: the time-span parser (`getTimeSpan`,
`readTimeSpans`, `read_time_spans`), the runner factory (`newRunner`) and the
query x document batch loop of `main`.

Conventions of the embedding
* `std::string` is a `List Char`.
* `int` is an `Int` kept inside `[-2^31, 2^31)` by explicit range checks.
* `IPair*` is an `Option (Int × Int)`; `NULL` is `none`.
* a C++ exception is the `error` side of `Except Exn`; a program that stops
  (through `exit`, an exception nobody catches, or an access outside a
  vector) is the `error` side of `Except Halt`.
-/

namespace Dtw

/-- A `std::string`, as the list of its characters. -/
abbrev Str := List Char

/-- The exceptions that can leave `getTimeSpan`: the `std::runtime_error` it
throws itself, and the two `std::logic_error`s thrown by `std::stoi`. -/
inductive Exn where
  | runtime_error (what : Str)
  | invalid_argument
  | out_of_range
  deriving DecidableEq, Repr

/-- How the program can stop before `main` returns: `exit(status)`, an
exception that reaches the top of `main`, or a vector access outside
`[0, size)`. -/
inductive Halt where
  | exit (status : Int)
  | uncaught (e : Exn)
  | out_of_bounds
  deriving DecidableEq, Repr

deriving instance DecidableEq for Except

/-- The exit status a parent process observes after `exit(status)`: the low
eight bits of the argument. -/
def exitStatus (status : Int) : Int := status % 256

/-- A halted program always reports failure: `exit(-1)` is seen as 255, the
other two ways of halting are abnormal terminations. -/
def Halt.isFailure : Halt → Bool
  | .exit status => exitStatus status != 0
  | .uncaught _ => true
  | .out_of_bounds => true

/-- The type `IPair` of dtw_util.h: `std::pair<int, int>`. -/
abbrev IPair := Int × Int

/-- Smallest value of a 32-bit `int`. -/
def INT_MIN : Int := -2147483648

/-- Largest value of a 32-bit `int`. -/
def INT_MAX : Int := 2147483647

/-! ## The string primitives of the C++ library used by the driver -/

/-- The predicate `isspace` in the "C" locale: space, `\t`, `\n`, `\v`, `\f`, `\r`. -/
def isspace (c : Char) : Bool :=
  c.toNat == 32 || (9 ≤ c.toNat && c.toNat ≤ 13)

/-- The predicate `isdigit`: one of `0` .. `9`. -/
def isdigit (c : Char) : Bool :=
  48 ≤ c.toNat && c.toNat ≤ 57

/-- The call `s.find_first_of(chars)`: the first position holding one of `chars`;
`none` is `string::npos`. -/
def find_first_of (s : Str) (chars : Str) : Option Nat :=
  match s with
  | [] => none
  | c :: t =>
    if c ∈ chars then some 0
    else match find_first_of t chars with
      | some p => some (p + 1)
      | none => none

/-- The call `s.find_last_of(chars)`: the last position holding one of `chars`;
`none` is `string::npos`. -/
def find_last_of (s : Str) (chars : Str) : Option Nat :=
  match s with
  | [] => none
  | c :: t =>
    match find_last_of t chars with
    | some p => some (p + 1)
    | none => if c ∈ chars then some 0 else none

/-- The call `s.substr(pos)`: the characters from `pos` on; throws `out_of_range` when
`pos > s.size()`. -/
def substr (s : Str) (pos : Nat) : Except Exn Str :=
  if pos > s.length then .error .out_of_range else .ok (s.drop pos)

/-- The call `s.substr(pos, n)`: at most `n` characters from `pos` on; throws
`out_of_range` when `pos > s.size()`. -/
def substrN (s : Str) (pos n : Nat) : Except Exn Str :=
  if pos > s.length then .error .out_of_range else .ok ((s.drop pos).take n)

/-- The digit loop of `strtol` in base 10: the number read so far is `acc`,
and each further digit appends to it. -/
def accDigits (acc : Nat) : Str → Nat
  | [] => acc
  | c :: t => accDigits (10 * acc + (c.toNat - 48)) t

/-- The optional sign of `strtol`: whether it was a minus, and the text after
it. -/
def stripSign : Str → Bool × Str
  | '-' :: t => (true, t)
  | '+' :: t => (false, t)
  | body => (false, body)

/-- The number `strtol` returns for a sign and the digits read. -/
def applySign (minus : Bool) (magnitude : Nat) : Int :=
  if minus then -(magnitude : Int) else (magnitude : Int)

/-- The range check of `std::stoi`: a value that is not an `int` is
`out_of_range`. -/
def checkRange (value : Int) : Except Exn Int :=
  if value < INT_MIN ∨ INT_MAX < value then .error .out_of_range
  else .ok value

/-- The call `std::stoi(s)`: `strtol` in base 10 followed by the `int` range check.
Leading white space is skipped, one sign is accepted, the longest run of
digits is converted and whatever follows is ignored. No digit at all is
`invalid_argument`; a value outside `int` is `out_of_range`. -/
def stoi (s : Str) : Except Exn Int :=
  let signed := stripSign (s.dropWhile isspace)
  let digits := signed.2.takeWhile isdigit
  if digits.isEmpty then .error .invalid_argument
  else checkRange (applySign signed.1 (accDigits 0 digits))

/-! ## `getTimeSpan` (dtw.cpp, lines 259-268) -/

/-- The message of the `runtime_error` of `getTimeSpan`. -/
def wrongFormat (line : Str) : Str :=
  '"' :: line ++ "\" wrong format!!".toList

/-- The function `getTimeSpan(line)`: `NULL` for the empty line, a
`runtime_error` when the line holds neither a hyphen nor a space, and
otherwise the pair of the two `stoi` results around the first hyphen or space.
C++ leaves open which of the two `stoi` calls runs first; here the left one
does, which only matters for the kind of exception when both calls throw. -/
def getTimeSpan (line : Str) : Except Exn (Option IPair) :=
  if line.isEmpty then .ok none
  else
    match find_first_of line ['-', ' '] with
    | none => .error (.runtime_error (wrongFormat line))
    | some pos =>
      match substrN line 0 pos with
      | .error e => .error e
      | .ok left =>
      match stoi left with
      | .error e => .error e
      | .ok first =>
      match substr line (pos + 1) with
      | .error e => .error e
      | .ok right =>
      match stoi right with
      | .error e => .error e
      | .ok second => .ok (some (first, second))

/-! ## `std::vector` accesses -/

/-- The read `v[i]`: defined only for `i < v.size()`. -/
def vget {α : Type} (v : List α) (i : Nat) : Except Halt α :=
  match v[i]? with
  | some x => .ok x
  | none => .error .out_of_bounds

/-- The write `v[i] = x`: defined only for `i < v.size()`. -/
def vset {α : Type} (v : List α) (i : Nat) (x : α) : Except Halt (List α) :=
  if i < v.length then .ok (v.set i x) else .error .out_of_bounds

/-! ## `read_time_spans` and `readTimeSpans` (dtw.cpp, lines 270-318) -/

/-- What `ifstream` finds under a file name: `none` when the file cannot be
opened, otherwise the lines that successive `std::getline` calls return. -/
abbrev Files := Str → Option (List Str)

/-- The `while (std::getline(fin, line))` loop of `read_time_spans`, started
with the lines still to be read, the vector `times` and the counter `i`.
A row beyond `times.size()` ends the loop with a warning; a `runtime_error`
of `getTimeSpan` is caught and turned into `exit(-1)`; the exceptions of
`stoi` are not `runtime_error`s and leave the function. -/
def read_time_spans_loop :
    List Str → List (Option IPair) → Nat → Except Halt (List (Option IPair))
  | [], times, _ => .ok times
  | line :: rest, times, i =>
    if i ≥ times.length then .ok times
    else
      match getTimeSpan line with
      | .ok span =>
        match vset times i span with
        | .ok times1 => read_time_spans_loop rest times1 (i + 1)
        | .error h => .error h
      | .error (.runtime_error _) => .error (.exit (-1))
      | .error e => .error (.uncaught e)

/-- The function `read_time_spans(times, fn)`: `exit(-1)` when the file cannot be opened,
otherwise the line loop from row 0. The result is the final `times`. -/
def read_time_spans (fs : Files) (times : List (Option IPair)) (fn : Str) :
    Except Halt (List (Option IPair)) :=
  match fs fn with
  | none => .error (.exit (-1))
  | some lines => read_time_spans_loop lines times 0

/-- The extension computed by `readTimeSpans`: the text from the last dot on,
or the empty string when there is no dot. -/
def extension (fn : Str) : Except Exn Str :=
  match find_last_of fn ['.'] with
  | some pos => substr fn pos
  | none => .ok []

/-- The function `readTimeSpans(fn, N)`: a vector of `N` `NULL`s, filled from the file when
`fn` ends in `.txt`, and otherwise written at position 0 with
`getTimeSpan(fn)`. `main` has no handler, so an exception ends the program. -/
def readTimeSpans (fs : Files) (fn : Str) (N : Nat) :
    Except Halt (List (Option IPair)) :=
  let times : List (Option IPair) := List.replicate N none
  match extension fn with
  | .error e => .error (.uncaught e)
  | .ok ext =>
    if ext = ".txt".toList then read_time_spans fs times fn
    else
      match getTimeSpan fn with
      | .ok span => vset times 0 span
      | .error e => .error (.uncaught e)

/-! ## `newRunner` (dtw.cpp, lines 158-200) -/

/-- The two local distance functions of dtw_util.h that `newRunner` selects. -/
inductive VectorDistFn where
  | euclinorm
  | innernorm
  deriving DecidableEq, Repr

/-- The five runner classes of dtw_parm.h, each built from a distance
function. -/
inductive DtwRunner where
  | SegDtwRunner (dist_fn : VectorDistFn)
  | SlopeConDtwRunner (dist_fn : VectorDistFn)
  | FreeFrameDtwRunner (dist_fn : VectorDistFn)
  | FixFrameDtwRunner (dist_fn : VectorDistFn)
  | SegmentalDtwRunner (dist_fn : VectorDistFn)
  deriving DecidableEq, Repr

/-- Of `enum DTW_TYPE`, the first enumerator. -/
def SEGMENT_BASED : Int := 0
/-- Of `enum DTW_TYPE`, the second enumerator. -/
def SLOPE_CONSTRAINT : Int := 1
/-- Of `enum DTW_TYPE`, the third enumerator. -/
def FREE_FRAME : Int := 2
/-- Of `enum DTW_TYPE`, the fourth enumerator. -/
def FIX_FRAME : Int := 3
/-- Of `enum DTW_TYPE`, the fifth enumerator. -/
def SEGEMENTAL : Int := 4

/-- The first `switch` of `newRunner`: the distance function of `dist_type`. -/
def selectDist (dist_type : Int) : Except Halt VectorDistFn :=
  if dist_type = 0 then .ok .euclinorm
  else if dist_type = 1 then .ok .innernorm
  else .error (.exit (-1))

/-- The function `newRunner(type, dist_type)`: the two `switch` statements in source order;
either `default` branch is `exit(-1)`. `type` is the integer that `main` casts
to `DTW_TYPE`. -/
def newRunner (type : Int) (dist_type : Int) : Except Halt DtwRunner :=
  match selectDist dist_type with
  | .error h => .error h
  | .ok dist_fn =>
    if type = SEGMENT_BASED then .ok (.SegDtwRunner dist_fn)
    else if type = SLOPE_CONSTRAINT then .ok (.SlopeConDtwRunner dist_fn)
    else if type = FREE_FRAME then .ok (.FreeFrameDtwRunner dist_fn)
    else if type = FIX_FRAME then .ok (.FixFrameDtwRunner dist_fn)
    else if type = SEGEMENTAL then .ok (.SegmentalDtwRunner dist_fn)
    else .error (.exit (-1))

/-! ## The batch loop of `main` (dtw.cpp, lines 106-150) -/

/-- The four options of the group "Options for SegDtwRunner", as `main` passes
them to the six-argument `LoadParm`. `F` stands for `float`. -/
structure SegOpts (F : Type) where
  bseg_ratio : F
  superseg_ratio : F
  width : Int
  gran : Int
  deriving DecidableEq, Repr

/-- Modelled from the spec: `float_inf` is declared in dtw_util.h, which is not
under src; the spec names the value reported for an empty hypothesis list
"negative infinity", so `-float_inf` is a value of its own, `negFloatInf`,
different from every score `hypo_score[0]` of type `F`. -/
inductive Printed (F : Type) where
  | negFloatInf
  | score (value : F)
  deriving DecidableEq, Repr

/-- What the driver does that is visible outside of it, in program order. -/
inductive Event (F : Type) where
  /-- The call `q_parm.LoadParm(...)` (`isQuery`) or `d_parm.LoadParm(...)`: the file
  name and, for the six-argument overload only, the segment options. -/
  | loadParm (isQuery : Bool) (fname : Str) (seg : Option (SegOpts F))
  /-- The calls `runner->InitDtw(...); runner->DTW();` for the pair `(i, j)`, with the
  contents of `hypo_score` and `hypo_bound` at the moment of the call and the
  two time spans handed over. -/
  | runDtw (i j : Nat) (score_in : List F) (bound_in : List IPair)
      (q_time d_time : Option IPair)
  /-- The call `showDetailedResult(...)` with the two result lists. -/
  | showDetailedResult (q_name d_name : Str) (hypo_score : List F)
      (hypo_bound : List IPair)
  /-- The value sent to `cout` in the default mode. -/
  | print (value : Printed F)
  /-- The output `cout << endl` after a row of documents. -/
  | endl
  deriving DecidableEq, Repr

/-- The engine behind `InitDtw` and `DTW` (dtw_parm.h, not part of the
driver): any function of the runner state `R`, the two loaded parameter
objects `P`, the two time spans and the current result lists that yields a new
runner state and new result lists. `LoadParm` is any function updating a
parameter object. -/
structure Engine (R P F : Type) where
  LoadParm : P → Str → Option (SegOpts F) → P
  run : R → P → P → Option IPair → Option IPair → List F → List IPair →
    R × List F × List IPair

/-- The variables of `main` that the batch loop changes, the events so far,
and the reason the program stopped, if it did. -/
structure Loop (R P F : Type) where
  runner : R
  q_parm : P
  d_parm : P
  hypo_score : List F
  hypo_bound : List IPair
  out : List (Event F)
  halted : Option Halt

/-- The command-line values the loop reads. -/
structure Options (F : Type) where
  detail : Bool
  type : Int
  seg : SegOpts F

/-- Lines 135-143: the detailed table, or the best score of the pair. -/
def report {R P F : Type} (detail : Bool) (q_name d_name : Str)
    (st : Loop R P F) : Loop R P F :=
  if detail then
    { st with out := st.out ++
        [.showDetailedResult q_name d_name st.hypo_score st.hypo_bound] }
  else if st.hypo_score.isEmpty then
    { st with out := st.out ++ [.print .negFloatInf] }
  else
    match vget st.hypo_score 0 with
    | .ok best => { st with out := st.out ++ [.print (.score best)] }
    | .error h => { st with halted := some h }

/-- Lines 114-121: the six-argument `LoadParm` when `type == SEGMENT_BASED`,
the one-argument `LoadParm` otherwise. -/
def loadArgs {F : Type} (opts : Options F) : Option (SegOpts F) :=
  if opts.type = SEGMENT_BASED then some opts.seg else none

/-- The body of the inner loop (lines 114-146) for the pair `(i, j)`. -/
def pairBody {R P F : Type} (eng : Engine R P F) (opts : Options F)
    (q_fnames d_fnames : List Str) (q_times d_times : List (Option IPair))
    (i j : Nat) (st : Loop R P F) : Loop R P F :=
  match vget q_fnames i with
  | .error h => { st with halted := some h }
  | .ok q_name =>
  let st1 : Loop R P F :=
    { st with q_parm := eng.LoadParm st.q_parm q_name (loadArgs opts)
              out := st.out ++ [.loadParm true q_name (loadArgs opts)] }
  match vget d_fnames j with
  | .error h => { st1 with halted := some h }
  | .ok d_name =>
  let st2 : Loop R P F :=
    { st1 with d_parm := eng.LoadParm st1.d_parm d_name (loadArgs opts)
               out := st1.out ++ [.loadParm false d_name (loadArgs opts)] }
  match vget q_times i with
  | .error h => { st2 with halted := some h }
  | .ok q_time =>
  match vget d_times j with
  | .error h => { st2 with halted := some h }
  | .ok d_time =>
  let res := eng.run st2.runner st2.q_parm st2.d_parm q_time d_time
    st2.hypo_score st2.hypo_bound
  let st3 : Loop R P F :=
    { st2 with runner := res.1, hypo_score := res.2.1, hypo_bound := res.2.2
               out := st2.out ++
                 [.runDtw i j st2.hypo_score st2.hypo_bound q_time d_time] }
  let st4 := report opts.detail q_name d_name st3
  match st4.halted with
  | some _ => st4
  | none => { st4 with hypo_score := [], hypo_bound := [] }

/-- A counting loop `for (k = start; k < start + n; ++k) body(k)`, which stops
as soon as the program has halted. -/
def forLoop {R P F : Type} (body : Nat → Loop R P F → Loop R P F) :
    Nat → Nat → Loop R P F → Loop R P F
  | 0, _, st => st
  | n + 1, k, st =>
    match st.halted with
    | some _ => st
    | none => forLoop body n (k + 1) (body k st)

/-- The body of the outer loop (lines 112-149): all documents for query `i`,
then the end of the output row. -/
def rowBody {R P F : Type} (eng : Engine R P F) (opts : Options F)
    (q_fnames d_fnames : List Str) (q_times d_times : List (Option IPair))
    (i : Nat) (st : Loop R P F) : Loop R P F :=
  let st1 := forLoop (pairBody eng opts q_fnames d_fnames q_times d_times i)
    d_fnames.length 0 st
  match st1.halted with
  | some _ => st1
  | none => { st1 with out := st1.out ++ [.endl] }

/-- Lines 106-150: the state `main` enters the loops with (both result
vectors freshly constructed, hence empty) and the two nested loops. -/
def batchLoop {R P F : Type} (eng : Engine R P F) (opts : Options F)
    (runner : R) (parm0 : P)
    (q_fnames d_fnames : List Str) (q_times d_times : List (Option IPair)) :
    Loop R P F :=
  forLoop (rowBody eng opts q_fnames d_fnames q_times d_times)
    q_fnames.length 0
    { runner := runner, q_parm := parm0, d_parm := parm0,
      hypo_score := [], hypo_bound := [], out := [], halted := none }

/-! ## `readFeatures` (dtw.cpp, lines 223-257) -/

/-- The tokens that `fin >> token` extracts from one line: the maximal runs of
characters that are not white space. `cur` is the token being read. -/
def tokensOf (cur : Str) : Str → List Str
  | [] => if cur.isEmpty then [] else [cur]
  | c :: t =>
    if isspace c then
      if cur.isEmpty then tokensOf [] t else cur :: tokensOf [] t
    else tokensOf (cur ++ [c]) t

/-- The function `read_file_list(fnames, fn)`: every token of the file, in order. -/
def read_file_list (fs : Files) (fn : Str) : Except Halt (List Str) :=
  match fs fn with
  | none => .error (.exit (-1))
  | some lines => .ok (lines.flatMap (tokensOf []))

/-- The function `readFeatures(fn)`: the names listed in a `.lst` or `.scp` file, the name
itself for a `.mfc` or `.fbank` file, `exit(-1)` for another extension. A
name without a dot makes `substr(npos)` throw. -/
def readFeatures (fs : Files) (fn : Str) : Except Halt (List Str) :=
  match find_last_of fn ['.'] with
  | none => .error (.uncaught .out_of_range)
  | some pos =>
    match substr fn pos with
    | .error e => .error (.uncaught e)
    | .ok ext =>
      if ext = ".lst".toList ∨ ext = ".scp".toList then read_file_list fs fn
      else if ext = ".mfc".toList ∨ ext = ".fbank".toList then .ok [fn]
      else .error (.exit (-1))

/-! ## Reference notions the statements are measured against -/

/-- The number a string of decimal digits denotes, by positional notation. -/
def decimalValue : Str → Nat
  | [] => 0
  | c :: t => (c.toNat - 48) * 10 ^ t.length + decimalValue t

/-- The textual span format of the help text: a non-empty run of digits, one
hyphen or one space, a non-empty run of digits, and nothing else. -/
def isSpanText (s : Str) : Bool :=
  let first := s.takeWhile isdigit
  match s.dropWhile isdigit with
  | [] => false
  | sep :: second =>
    (sep == '-' || sep == ' ') && !first.isEmpty && !second.isEmpty
      && second.all isdigit

/-- The text `s` starts with the number `n` in the sense of `strtol`: white
space, at most one sign, a non-empty run of digits that is not continued by a
further digit, then anything; `n` is the signed value of the digit run. -/
def StartsWithNumber (s : Str) (n : Int) : Prop :=
  ∃ ws sign ds rest, s = ws ++ (sign ++ (ds ++ rest))
    ∧ (∀ c ∈ ws, isspace c = true)
    ∧ (sign = [] ∨ sign = ['+'] ∨ sign = ['-'])
    ∧ ds ≠ [] ∧ (∀ c ∈ ds, isdigit c = true)
    ∧ (∀ c, rest.head? = some c → isdigit c = false)
    ∧ n = (if sign = ['-'] then -(decimalValue ds : Int) else (decimalValue ds : Int))

/-- The text `s` starts with the `int` `v`: it starts with the number `v`, and
`v` lies in the range of a 32-bit `int`. -/
def StartsWithInt (s : Str) (v : Int) : Prop :=
  StartsWithNumber s v ∧ -2 ^ 31 ≤ v ∧ v ≤ 2 ^ 31 - 1

/-- The exception the C++ standard prescribes for `std::stoi` on the text `s`:
`invalid_argument` when `s` does not start with a number, `out_of_range` when
it starts with a number that is not a 32-bit `int`. -/
def StoiRaises (s : Str) (e : Exn) : Prop :=
  (e = .invalid_argument ∧ ¬ ∃ n, StartsWithNumber s n)
  ∨ (e = .out_of_range ∧ ∃ n, StartsWithNumber s n ∧ (n < -2 ^ 31 ∨ 2 ^ 31 - 1 < n))

/-- The texts `getTimeSpan` turns into the span `(first, second)`: the text
before the first hyphen or space starts with the `int` `first`, the text after
it starts with the `int` `second`. -/
def DenotesSpan (line : Str) (first second : Int) : Prop :=
  ∃ a sep b, line = a ++ sep :: b ∧ (∀ c ∈ a, c ≠ '-' ∧ c ≠ ' ')
    ∧ (sep = '-' ∨ sep = ' ') ∧ StartsWithInt a first ∧ StartsWithInt b second

/-- An engine call that found both result lists empty; any other event
qualifies. -/
def Event.startsFresh {F : Type} : Event F → Prop
  | .runDtw _ _ score_in bound_in _ _ => score_in = [] ∧ bound_in = []
  | _ => True

/-- A `LoadParm` call that was given exactly `seg` as segment options; any
other event qualifies. -/
def Event.loadsWith {F : Type} (seg : Option (SegOpts F)) : Event F → Prop
  | .loadParm _ _ given => given = seg
  | _ => True

/-- Every engine call in the event list found both result lists empty. -/
def AllFresh {F : Type} (out : List (Event F)) : Prop :=
  ∀ e ∈ out, e.startsFresh

/-- A sample engine over integer scores: it appends the scores 7 and 9 and one
bound to whatever the lists hold when the document span is present, and
leaves the lists alone when it is absent. -/
def sampleEngine : Engine Unit Unit Int where
  LoadParm := fun _ _ _ => ()
  run := fun _ _ _ _ d_time score bound =>
    match d_time with
    | none => ((), score, bound)
    | some span => ((), score ++ [7, 9], bound ++ [span])

/-- Sample options: default mode, the given `--type`, and the default values
of the four segment options with the ratios scaled by ten. -/
def sampleOptions (type : Int) : Options Int :=
  { detail := false, type := type,
    seg := { bseg_ratio := 5, superseg_ratio := 40, width := 3, gran := 3 } }

/-- A sample engine that remembers, in its runner state, the number of calls
made so far, and returns it as the only score. -/
def countingEngine : Engine Int Unit Int where
  LoadParm := fun _ _ _ => ()
  run := fun calls _ _ _ _ score bound => (calls + 1, score ++ [calls], bound)

/-- The program ended through `exit` with a status that is not zero. -/
def ExitsNonZero {α : Type} (r : Except Halt α) : Prop :=
  ∃ status, r = .error (.exit status) ∧ exitStatus status ≠ 0

/-- The numbers of the `--type` help text (lines 49-54). -/
def knownType (type : Int) : Prop :=
  type = 0 ∨ type = 1 ∨ type = 2 ∨ type = 3 ∨ type = 4

/-- The numbers of the `--dist` help text (lines 55-57). -/
def knownDist (dist_type : Int) : Prop :=
  dist_type = 0 ∨ dist_type = 1


/-! ## Auxiliary notions of the proofs -/

/-- The value of `getTimeSpan` on a line cut at its first hyphen or space. -/
def spanOf (a b : Str) : Except Exn (Option IPair) :=
  match stoi a with
  | .error e => .error e
  | .ok first =>
    match stoi b with
    | .error e => .error e
    | .ok second => .ok (some (first, second))

/-- The sign that `stripSign` removed, as text. -/
def signText (body : Str) : Str :=
  match body with
  | '-' :: _ => ['-']
  | '+' :: _ => ['+']
  | _ => []

/-- How `read_time_spans` reacts to an exception of `getTimeSpan`: the
`runtime_error` is caught and becomes `exit(-1)`, any other one escapes. -/
def haltOf : Exn → Halt
  | .runtime_error _ => .exit (-1)
  | e => .uncaught e

/-- What the loop keeps true between two pairs: while the program runs both
result lists are empty, every engine call so far started from empty lists,
and every `LoadParm` call so far was given `seg`. -/
def LoopInv {R P F : Type} (seg : Option (SegOpts F)) (st : Loop R P F) : Prop :=
  (st.halted = none → st.hypo_score = [] ∧ st.hypo_bound = [])
  ∧ ∀ e ∈ st.out, e.startsFresh ∧ e.loadsWith seg

theorem selectDist_known {dist_type : Int} (h : knownDist dist_type) :
    ∃ d, selectDist dist_type = .ok d := by
  rcases h with h | h <;> subst h <;> exact ⟨_, rfl⟩

theorem selectDist_unknown {dist_type : Int} (h : ¬ knownDist dist_type) :
    selectDist dist_type = .error (.exit (-1)) := by
  unfold knownDist at h
  push_neg at h
  simp [selectDist, h.1, h.2]

/-- C4: `newRunner` ends the program with a non-zero exit status exactly when
`dist_type` is not 0 or 1 or `type` is not one of 0..4; on every other input
it returns a runner, namely the one the help text documents for the two
numbers. -/
theorem newRunner_contract (type dist_type : Int) :
    (ExitsNonZero (newRunner type dist_type) ↔
        (¬ knownDist dist_type ∨ ¬ knownType type))
    ∧ ((¬ knownDist dist_type ∨ ¬ knownType type) ∨
        ∃ runner, newRunner type dist_type = .ok runner)
    ∧ newRunner 0 0 = .ok (.SegDtwRunner .euclinorm)
    ∧ newRunner 1 0 = .ok (.SlopeConDtwRunner .euclinorm)
    ∧ newRunner 2 0 = .ok (.FreeFrameDtwRunner .euclinorm)
    ∧ newRunner 3 0 = .ok (.FixFrameDtwRunner .euclinorm)
    ∧ newRunner 4 0 = .ok (.SegmentalDtwRunner .euclinorm)
    ∧ newRunner 0 1 = .ok (.SegDtwRunner .innernorm)
    ∧ newRunner 1 1 = .ok (.SlopeConDtwRunner .innernorm)
    ∧ newRunner 2 1 = .ok (.FreeFrameDtwRunner .innernorm)
    ∧ newRunner 3 1 = .ok (.FixFrameDtwRunner .innernorm)
    ∧ newRunner 4 1 = .ok (.SegmentalDtwRunner .innernorm) := by
  refine ⟨?_, ?_, by decide, by decide, by decide, by decide, by decide,
    by decide, by decide, by decide, by decide, by decide⟩
  · by_cases hd : knownDist dist_type
    · obtain ⟨d, hd1⟩ := selectDist_known hd
      by_cases ht : knownType type
      · have : ∃ runner, newRunner type dist_type = .ok runner := by
          rcases ht with h | h | h | h | h <;> subst h <;>
            simp [newRunner, hd1, SEGMENT_BASED, SLOPE_CONSTRAINT, FREE_FRAME,
              FIX_FRAME, SEGEMENTAL]
        obtain ⟨runner, hr⟩ := this
        simp [ExitsNonZero, hr, hd, ht]
      · have hne : newRunner type dist_type = .error (.exit (-1)) := by
          unfold knownType at ht
          push_neg at ht
          simp [newRunner, hd1, SEGMENT_BASED, SLOPE_CONSTRAINT, FREE_FRAME,
            FIX_FRAME, SEGEMENTAL, ht.1, ht.2.1, ht.2.2.1, ht.2.2.2.1,
            ht.2.2.2.2]
        constructor
        · intro _; exact Or.inr ht
        · intro _; exact ⟨-1, hne, by decide⟩
    · have hne : newRunner type dist_type = .error (.exit (-1)) := by
        simp [newRunner, selectDist_unknown hd]
      constructor
      · intro _; exact Or.inl hd
      · intro _; exact ⟨-1, hne, by decide⟩
  · by_cases hd : knownDist dist_type
    · by_cases ht : knownType type
      · right
        obtain ⟨d, hd1⟩ := selectDist_known hd
        rcases ht with h | h | h | h | h <;> subst h <;>
          simp [newRunner, hd1, SEGMENT_BASED, SLOPE_CONSTRAINT, FREE_FRAME,
            FIX_FRAME, SEGEMENTAL]
      · exact Or.inl (Or.inr ht)
    · exact Or.inl (Or.inl hd)

/-! ### The empty time-span argument -/

theorem vset_replicate_none (N : Nat) (hN : 1 ≤ N) :
    vset (List.replicate N (none : Option IPair)) 0 none
      = .ok (List.replicate N none) := by
  obtain ⟨n, rfl⟩ : ∃ n, N = n + 1 := ⟨N - 1, by omega⟩
  simp [vset, List.replicate_succ]

/-- C2: the empty time-span string means no restriction: `getTimeSpan("")` is
`NULL`, and for every feature count `N >= 1`, `readTimeSpans("", N)` returns
exactly `N` entries, all of them `NULL`. -/
theorem empty_span_means_full (fs : Files) (N : Nat) (hN : 1 ≤ N) :
    getTimeSpan [] = .ok none
    ∧ ∃ times, readTimeSpans fs [] N = .ok times
        ∧ times.length = N ∧ ∀ t ∈ times, t = none := by
  refine ⟨rfl, List.replicate N none, ?_, by simp, ?_⟩
  · have h := vset_replicate_none N hN
    simp [readTimeSpans, extension, find_last_of, getTimeSpan, h]
  · intro t ht
    exact (List.mem_replicate.mp ht).2

theorem empty_span_means_full_witness :
    1 ≤ 3 ∧ (getTimeSpan [] = .ok none
      ∧ ∃ times, readTimeSpans (fun _ => none) [] 3 = .ok times
          ∧ times.length = 3 ∧ ∀ t ∈ times, t = none) :=
  ⟨by decide, empty_span_means_full (fun _ => none) 3 (by decide)⟩

/-! ### `readTimeSpans` on an empty feature list -/

theorem readTimeSpans_single_zero (fs : Files) (fn ext : Str) (v : Option IPair)
    (hext : extension fn = .ok ext) (htxt : ext ≠ ".txt".toList)
    (hv : getTimeSpan fn = .ok v) :
    readTimeSpans fs fn 0 = .error .out_of_bounds := by
  unfold readTimeSpans
  simp only [hext, if_neg htxt, hv]
  simp [vset]

theorem readTimeSpans_single (fs : Files) (fn ext : Str) (v : Option IPair) (N : Nat)
    (hext : extension fn = .ok ext) (htxt : ext ≠ ".txt".toList)
    (hv : getTimeSpan fn = .ok v) (hN : 1 ≤ N) :
    readTimeSpans fs fn N = .ok (v :: List.replicate (N - 1) none) := by
  obtain ⟨n, rfl⟩ : ∃ n, N = n + 1 := ⟨N - 1, by omega⟩
  unfold readTimeSpans
  simp only [hext, if_neg htxt, hv]
  simp [vset, List.replicate_succ]

/-- C10, at the failing input: an empty list file `q.lst` gives zero features,
and `readTimeSpans("", 0)` then writes `times[0]` of an empty vector. -/
theorem readTimeSpans_zero_features_out_of_bounds :
    readFeatures (fun _ => some []) "q.lst".toList = .ok []
    ∧ readTimeSpans (fun _ => some []) [] 0 = .error .out_of_bounds := by
  decide

/-! ### Strings of digits -/

theorem isdigit_not_sep {c : Char} (h : isdigit c = true) : c ∉ ['-', ' '] := by
  intro hc
  simp only [List.mem_cons, List.mem_singleton, List.not_mem_nil, or_false] at hc
  rcases hc with rfl | rfl <;> revert h <;> decide

theorem isdigit_not_space {c : Char} (h : isdigit c = true) : isspace c = false := by
  simp only [isdigit, Bool.and_eq_true, decide_eq_true_eq] at h
  simp only [isspace, Bool.or_eq_false_iff, Bool.and_eq_false_iff, beq_eq_false_iff_ne,
    decide_eq_false_iff_not]
  omega

theorem stripSign_digit {c : Char} (t : Str) (h : isdigit c = true) :
    stripSign (c :: t) = (false, c :: t) := by
  have h1 : c ≠ '-' := by rintro rfl; revert h; decide
  have h2 : c ≠ '+' := by rintro rfl; revert h; decide
  unfold stripSign
  split
  · rename_i heq; simp at heq; exact absurd heq.1 h1
  · rename_i heq; simp at heq; exact absurd heq.1 h2
  · rfl

theorem find_first_of_append (a b chars : Str) (sep : Char)
    (ha : ∀ c ∈ a, c ∉ chars) (hsep : sep ∈ chars) :
    find_first_of (a ++ sep :: b) chars = some a.length := by
  induction a with
  | nil => simp [find_first_of, hsep]
  | cons c t ih =>
    have hc : c ∉ chars := ha c (List.mem_cons_self _ _)
    have ht : ∀ x ∈ t, x ∉ chars := fun x hx => ha x (List.mem_cons_of_mem _ hx)
    simp [find_first_of, hc, ih ht]

theorem accDigits_eq (acc : Nat) (s : Str) :
    accDigits acc s = acc * 10 ^ s.length + decimalValue s := by
  induction s generalizing acc with
  | nil =>
    show acc = acc * 10 ^ 0 + 0
    omega
  | cons c t ih =>
    show accDigits (10 * acc + (c.toNat - 48)) t
      = acc * 10 ^ (t.length + 1) + ((c.toNat - 48) * 10 ^ t.length + decimalValue t)
    rw [ih, pow_succ]
    ring

theorem checkRange_ok {value v : Int} :
    checkRange value = .ok v ↔ v = value ∧ INT_MIN ≤ value ∧ value ≤ INT_MAX := by
  unfold checkRange
  by_cases hr : value < INT_MIN ∨ INT_MAX < value
  · rw [if_pos hr]
    constructor
    · intro h; cases h
    · rintro ⟨_, h1, h2⟩
      rcases hr with hr | hr <;> omega
  · rw [if_neg hr]
    push_neg at hr
    constructor
    · intro h
      simp only [Except.ok.injEq] at h
      exact ⟨h.symm, hr⟩
    · rintro ⟨h, _⟩
      rw [h]

/-- When `stoi` returns: some digit follows the white space and the sign, and
the signed value of the digit run is an `int`. -/
theorem stoi_ok {s : Str} {v : Int} :
    stoi s = .ok v ↔
      (stripSign (s.dropWhile isspace)).2.takeWhile isdigit ≠ []
      ∧ v = applySign (stripSign (s.dropWhile isspace)).1
          (accDigits 0 ((stripSign (s.dropWhile isspace)).2.takeWhile isdigit))
      ∧ INT_MIN ≤ v ∧ v ≤ INT_MAX := by
  unfold stoi
  simp only
  by_cases hd : (stripSign (s.dropWhile isspace)).2.takeWhile isdigit = []
  · simp [hd]
  · have he : ((stripSign (s.dropWhile isspace)).2.takeWhile isdigit).isEmpty = false := by
      cases hh : (stripSign (s.dropWhile isspace)).2.takeWhile isdigit with
      | nil => exact absurd hh hd
      | cons c t => rfl
    rw [he]
    simp only [Bool.false_eq_true, if_false, checkRange_ok, ne_eq, hd, not_false_eq_true,
      true_and]
    constructor
    · rintro ⟨h1, h2, h3⟩
      exact ⟨h1, by rw [h1]; exact h2, by rw [h1]; exact h3⟩
    · rintro ⟨h1, h2, h3⟩
      exact ⟨h1, by rw [← h1]; exact h2, by rw [← h1]; exact h3⟩

theorem stoi_digits (s : Str) (hne : s ≠ []) (hd : ∀ c ∈ s, isdigit c = true)
    (hfit : (decimalValue s : Int) ≤ INT_MAX) :
    stoi s = .ok (decimalValue s : Int) := by
  obtain ⟨c, t, rfl⟩ := List.exists_cons_of_ne_nil hne
  have hc : isdigit c = true := hd c (List.mem_cons_self _ _)
  have hdrop : (c :: t).dropWhile isspace = c :: t := by
    simp [List.dropWhile, isdigit_not_space hc]
  have htake : (c :: t).takeWhile isdigit = c :: t :=
    List.takeWhile_eq_self_iff.mpr (by simpa using hd)
  have hlow : INT_MIN ≤ (decimalValue (c :: t) : Int) := by
    have : (0 : Int) ≤ (decimalValue (c :: t) : Int) := Int.ofNat_nonneg _
    unfold INT_MIN; omega
  rw [stoi_ok, hdrop, stripSign_digit t hc, htake, accDigits_eq]
  refine ⟨by simp, ?_, hlow, hfit⟩
  simp [applySign]

/-! ### `getTimeSpan` around its first separator -/

theorem find_first_of_none {s chars : Str} :
    find_first_of s chars = none ↔ ∀ c ∈ s, c ∉ chars := by
  induction s with
  | nil => simp [find_first_of]
  | cons c t ih =>
    by_cases hc : c ∈ chars
    · simp [find_first_of, hc]
    · cases hft : find_first_of t chars with
      | none => simpa [find_first_of, hc, hft] using ih.mp hft
      | some p =>
        have : ¬ ∀ x ∈ t, x ∉ chars := fun h => by
          rw [ih.mpr h] at hft; cases hft
        simp only [find_first_of, hc, hft, if_false, List.mem_cons, forall_eq_or_imp]
        constructor
        · intro h; cases h
        · intro h; exact absurd h.2 this

theorem find_first_of_some {s chars : Str} {p : Nat}
    (h : find_first_of s chars = some p) :
    ∃ a sep b, s = a ++ sep :: b ∧ a.length = p ∧ (∀ c ∈ a, c ∉ chars)
      ∧ sep ∈ chars := by
  induction s generalizing p with
  | nil => simp [find_first_of] at h
  | cons c t ih =>
    by_cases hc : c ∈ chars
    · simp only [find_first_of, hc, if_true, Option.some.injEq] at h
      exact ⟨[], c, t, rfl, by simpa using h, by simp, hc⟩
    · cases hft : find_first_of t chars with
      | none => simp [find_first_of, hc, hft] at h
      | some q =>
        simp only [find_first_of, hc, hft, if_false, Option.some.injEq] at h
        obtain ⟨a, sep, b, hs, hlen, ha, hsep⟩ := ih hft
        refine ⟨c :: a, sep, b, by simp [hs], by simp [hlen, h], ?_, hsep⟩
        intro x hx
        rcases List.mem_cons.mp hx with rfl | hx
        · exact hc
        · exact ha x hx

theorem getTimeSpan_split (a b : Str) (sep : Char)
    (ha : ∀ c ∈ a, c ∉ ['-', ' ']) (hsep : sep ∈ ['-', ' ']) :
    getTimeSpan (a ++ sep :: b) = spanOf a b := by
  have hfind := find_first_of_append a b ['-', ' '] sep ha hsep
  have hne : (a ++ sep :: b).isEmpty = false := by
    cases a <;> rfl
  have hleft : substrN (a ++ sep :: b) 0 a.length = .ok a := by
    simp [substrN]
  have hright : substr (a ++ sep :: b) (a.length + 1) = .ok b := by
    have : List.drop (a.length + 1) (a ++ sep :: b) = b := by
      rw [List.drop_append_eq_append_drop]
      simp
    simp [substr, this]
  unfold getTimeSpan spanOf
  rw [hne] 
  simp only [Bool.false_eq_true, if_false, hfind, hleft, hright]

/-- C1: for non-empty digit strings `a` and `b` whose values fit in a 32-bit
`int`, `getTimeSpan` applied to `a-b` and to `a b` returns, without error, the
span whose start is the value of `a` and whose end is the value of `b`. -/
theorem getTimeSpan_digit_pair (a b : Str) (ha : a ≠ []) (hb : b ≠ [])
    (hda : ∀ c ∈ a, isdigit c = true) (hdb : ∀ c ∈ b, isdigit c = true)
    (hfa : (decimalValue a : Int) ≤ 2 ^ 31 - 1)
    (hfb : (decimalValue b : Int) ≤ 2 ^ 31 - 1) :
    getTimeSpan (a ++ '-' :: b)
        = .ok (some ((decimalValue a : Int), (decimalValue b : Int)))
    ∧ getTimeSpan (a ++ ' ' :: b)
        = .ok (some ((decimalValue a : Int), (decimalValue b : Int))) := by
  have hsa := stoi_digits a ha hda (by unfold INT_MAX; omega)
  have hsb := stoi_digits b hb hdb (by unfold INT_MAX; omega)
  have hnosep : ∀ c ∈ a, c ∉ ['-', ' '] := fun c hc => isdigit_not_sep (hda c hc)
  constructor
  · rw [getTimeSpan_split a b '-' hnosep (by simp)]
    simp [spanOf, hsa, hsb]
  · rw [getTimeSpan_split a b ' ' hnosep (by simp)]
    simp [spanOf, hsa, hsb]

theorem getTimeSpan_digit_pair_witness :
    getTimeSpan "10-20".toList = .ok (some (((10 : Nat) : Int), ((20 : Nat) : Int)))
    ∧ getTimeSpan "10 20".toList
        = .ok (some (((10 : Nat) : Int), ((20 : Nat) : Int))) :=
  getTimeSpan_digit_pair "10".toList "20".toList (by decide) (by decide)
    (by decide) (by decide) (by decide) (by decide)

/-! ### What a returned span can be -/

theorem stoi_range {s : Str} {v : Int} (h : stoi s = .ok v) :
    INT_MIN ≤ v ∧ v ≤ INT_MAX :=
  (stoi_ok.mp h).2.2

theorem stripSign_no_minus {body : Str} (h : '-' ∉ body) :
    (stripSign body).1 = false := by
  unfold stripSign
  split
  · simp at h
  · rfl
  · rfl

theorem stoi_nonneg_of_no_minus {s : Str} {v : Int} (hs : '-' ∉ s)
    (h : stoi s = .ok v) : 0 ≤ v := by
  have hbody : '-' ∉ s.dropWhile isspace := fun hm =>
    hs ((List.dropWhile_suffix isspace).subset hm)
  have hv := (stoi_ok.mp h).2.1
  rw [stripSign_no_minus hbody] at hv
  rw [hv]
  simp [applySign]

theorem spanOf_some {a b : Str} {first second : Int}
    (h : spanOf a b = .ok (some (first, second))) :
    stoi a = .ok first ∧ stoi b = .ok second := by
  unfold spanOf at h
  cases ha : stoi a with
  | error e => simp [ha] at h
  | ok x =>
    cases hb : stoi b with
    | error e => simp [ha, hb] at h
    | ok y =>
      simp only [ha, hb, Except.ok.injEq, Option.some.injEq, Prod.mk.injEq] at h
      rw [h.1, h.2]
      exact ⟨rfl, rfl⟩

theorem getTimeSpan_nil : getTimeSpan [] = .ok none := rfl

theorem getTimeSpan_no_sep {line : Str} (hne : line ≠ [])
    (h : ∀ c ∈ line, c ∉ ['-', ' ']) :
    getTimeSpan line = .error (.runtime_error (wrongFormat line)) := by
  have he : line.isEmpty = false := by
    cases line with
    | nil => exact absurd rfl hne
    | cons c t => rfl
  unfold getTimeSpan
  rw [he, find_first_of_none.mpr h]
  rfl

/-- Every non-empty line is either free of hyphens and spaces, or splits at
its first hyphen or space. -/
theorem line_cases (line : Str) :
    (∀ c ∈ line, c ∉ ['-', ' '])
    ∨ ∃ a sep b, line = a ++ sep :: b ∧ (∀ c ∈ a, c ∉ ['-', ' '])
        ∧ sep ∈ ['-', ' '] := by
  cases h : find_first_of line ['-', ' '] with
  | none => exact Or.inl (find_first_of_none.mp h)
  | some p =>
    obtain ⟨a, sep, b, hs, _, ha, hsep⟩ := find_first_of_some h
    exact Or.inr ⟨a, sep, b, hs, ha, hsep⟩

theorem getTimeSpan_some {line : Str} {first second : Int}
    (h : getTimeSpan line = .ok (some (first, second))) :
    ∃ a sep b, line = a ++ sep :: b ∧ (∀ c ∈ a, c ∉ ['-', ' '])
      ∧ sep ∈ ['-', ' '] ∧ stoi a = .ok first ∧ stoi b = .ok second := by
  by_cases hne : line = []
  · subst hne
    rw [getTimeSpan_nil] at h
    cases h
  · rcases line_cases line with hno | ⟨a, sep, b, hs, ha, hsep⟩
    · rw [getTimeSpan_no_sep hne hno] at h
      cases h
    · subst hs
      rw [getTimeSpan_split a b sep ha hsep] at h
      exact ⟨a, sep, b, rfl, ha, hsep, spanOf_some h⟩

/-- C6, as the code has it: whenever `getTimeSpan` returns a span, its start
is a non-negative `int` and its end is an `int`; the order of the two is not
checked and the end may be negative. -/
theorem getTimeSpan_span_bounds (line : Str) (first second : Int)
    (h : getTimeSpan line = .ok (some (first, second))) :
    0 ≤ first ∧ first ≤ 2 ^ 31 - 1 ∧ -2 ^ 31 ≤ second ∧ second ≤ 2 ^ 31 - 1 := by
  obtain ⟨a, sep, b, _, ha, _, hsa, hsb⟩ := getTimeSpan_some h
  have hminus : '-' ∉ a := fun hm => ha '-' hm (by simp)
  have h1 := stoi_nonneg_of_no_minus hminus hsa
  have h2 := stoi_range hsa
  have h3 := stoi_range hsb
  unfold INT_MIN INT_MAX at h2 h3
  refine ⟨h1, ?_, ?_, ?_⟩ <;> omega

theorem getTimeSpan_span_bounds_witness :
    (0 : Int) ≤ 20 ∧ (20 : Int) ≤ 2 ^ 31 - 1 ∧ -2 ^ 31 ≤ (10 : Int)
      ∧ (10 : Int) ≤ 2 ^ 31 - 1 :=
  getTimeSpan_span_bounds "20-10".toList 20 10 (by decide)

/-- C6 fails as stated: `"20-10"` yields the span `(20, 10)`, whose start
exceeds its end, and `"10--20"` yields `(10, -20)`. -/
theorem getTimeSpan_span_unordered :
    getTimeSpan "20-10".toList = .ok (some (20, 10))
    ∧ ¬ ((0 : Int) ≤ 20 ∧ (20 : Int) ≤ 10)
    ∧ getTimeSpan "10--20".toList = .ok (some (10, -20))
    ∧ ¬ ((0 : Int) ≤ 10 ∧ (10 : Int) ≤ -20) := by
  decide

/-! ### The texts `stoi` accepts -/

theorem dropWhile_append_stop (p : Char → Bool) (ws l : Str)
    (hws : ∀ c ∈ ws, p c = true) (hl : ∀ c, l.head? = some c → p c = false) :
    (ws ++ l).dropWhile p = l := by
  induction ws with
  | nil =>
    cases l with
    | nil => rfl
    | cons c t => simp [List.dropWhile, hl c rfl]
  | cons w ws ih =>
    have hw : p w = true := hws w (List.mem_cons_self _ _)
    simp only [List.cons_append, List.dropWhile_cons, hw, if_true]
    exact ih (fun c hc => hws c (List.mem_cons_of_mem _ hc))

theorem takeWhile_append_stop (p : Char → Bool) (ws l : Str)
    (hws : ∀ c ∈ ws, p c = true) (hl : ∀ c, l.head? = some c → p c = false) :
    (ws ++ l).takeWhile p = ws := by
  induction ws with
  | nil =>
    cases l with
    | nil => rfl
    | cons c t => simp [List.takeWhile, hl c rfl]
  | cons w ws ih =>
    have hw : p w = true := hws w (List.mem_cons_self _ _)
    simp only [List.cons_append, List.takeWhile_cons, hw, if_true]
    rw [ih (fun c hc => hws c (List.mem_cons_of_mem _ hc))]

theorem head_dropWhile (p : Char → Bool) (l : Str) :
    ∀ c, (l.dropWhile p).head? = some c → p c = false := by
  induction l with
  | nil => intro c h; simp at h
  | cons x t ih =>
    intro c h
    by_cases hx : p x = true
    · simp only [List.dropWhile_cons, hx, if_true] at h
      exact ih c h
    · have hx1 : p x = false := by simpa using hx
      simp only [List.dropWhile_cons, hx1, Bool.false_eq_true, if_false, List.head?_cons,
        Option.some.injEq] at h
      subst h
      exact hx1

theorem mem_takeWhile_imp (p : Char → Bool) (l : Str) :
    ∀ c ∈ l.takeWhile p, p c = true := by
  induction l with
  | nil => intro c h; simp at h
  | cons x t ih =>
    intro c h
    by_cases hx : p x = true
    · simp only [List.takeWhile_cons, hx, if_true, List.mem_cons] at h
      rcases h with rfl | h
      · exact hx
      · exact ih c h
    · simp [List.takeWhile_cons, hx] at h

theorem stripSign_split (body : Str) :
    body = signText body ++ (stripSign body).2
    ∧ (signText body = [] ∨ signText body = ['+'] ∨ signText body = ['-'])
    ∧ ((stripSign body).1 = true ↔ signText body = ['-']) := by
  unfold signText stripSign
  split <;> simp

theorem stripSign_sign (sign tail : Str)
    (hsign : sign = [] ∨ sign = ['+'] ∨ sign = ['-'])
    (htail : ∃ c t, tail = c :: t ∧ isdigit c = true) :
    stripSign (sign ++ tail) = (decide (sign = ['-']), tail) := by
  obtain ⟨c, t, rfl, hc⟩ := htail
  rcases hsign with rfl | rfl | rfl
  · simpa using stripSign_digit t hc
  · rfl
  · rfl

theorem applySign_eq (minus : Bool) (sign : Str) (n : Nat)
    (h : minus = true ↔ sign = ['-']) :
    applySign minus n = (if sign = ['-'] then -(n : Int) else (n : Int)) := by
  unfold applySign
  by_cases hs : sign = ['-']
  · simp [hs, h.mpr hs]
  · have : minus = false := by
      cases minus
      · rfl
      · exact absurd (h.mp rfl) hs
    simp [hs, this]

/-- The texts that start with a number are those on which the scan of `stoi`
finds a digit, and the number is the one the scan computes. -/
theorem startsWithNumber_iff (s : Str) (n : Int) :
    StartsWithNumber s n ↔
      (stripSign (s.dropWhile isspace)).2.takeWhile isdigit ≠ []
      ∧ n = applySign (stripSign (s.dropWhile isspace)).1
          (accDigits 0 ((stripSign (s.dropWhile isspace)).2.takeWhile isdigit)) := by
  constructor
  · rintro ⟨ws, sign, ds, rest, hs, hws, hsign, hne, hds, hrest, hv⟩
    obtain ⟨d, ds1, rfl⟩ := List.exists_cons_of_ne_nil hne
    have hd : isdigit d = true := hds d (List.mem_cons_self _ _)
    have hhead : ∀ c, (sign ++ (d :: ds1 ++ rest)).head? = some c → isspace c = false := by
      intro c hc
      rcases hsign with rfl | rfl | rfl
      · simp only [List.nil_append, List.cons_append, List.head?_cons, Option.some.injEq] at hc
        subst hc
        exact isdigit_not_space hd
      · simp only [List.cons_append, List.head?_cons, Option.some.injEq] at hc
        subst hc
        decide
      · simp only [List.cons_append, List.head?_cons, Option.some.injEq] at hc
        subst hc
        decide
    have hdrop : s.dropWhile isspace = sign ++ (d :: ds1 ++ rest) := by
      rw [hs]
      exact dropWhile_append_stop isspace ws _ hws hhead
    have hstrip : stripSign (sign ++ (d :: ds1 ++ rest))
        = (decide (sign = ['-']), d :: ds1 ++ rest) :=
      stripSign_sign sign _ hsign ⟨d, ds1 ++ rest, rfl, hd⟩
    have htake : (d :: ds1 ++ rest).takeWhile isdigit = d :: ds1 :=
      takeWhile_append_stop isdigit (d :: ds1) rest hds hrest
    rw [hdrop, hstrip]
    simp only [htake]
    refine ⟨by simp, ?_⟩
    rw [hv, accDigits_eq, applySign_eq (decide (sign = ['-'])) sign _ (by simp)]
    simp
  · rintro ⟨hne, hv⟩
    obtain ⟨hbody, hsign, hminus⟩ := stripSign_split (s.dropWhile isspace)
    refine ⟨s.takeWhile isspace, signText (s.dropWhile isspace),
      (stripSign (s.dropWhile isspace)).2.takeWhile isdigit,
      (stripSign (s.dropWhile isspace)).2.dropWhile isdigit, ?_, ?_, hsign, hne, ?_, ?_, ?_⟩
    · rw [List.takeWhile_append_dropWhile, ← hbody, List.takeWhile_append_dropWhile]
    · exact mem_takeWhile_imp _ _
    · exact mem_takeWhile_imp _ _
    · exact head_dropWhile _ _
    · rw [hv, accDigits_eq, applySign_eq _ _ _ hminus]
      simp

/-- The texts on which `stoi` returns `v` are exactly those that start with
the `int` `v`. -/
theorem stoi_ok_iff_startsWithInt (s : Str) (v : Int) :
    stoi s = .ok v ↔ StartsWithInt s v := by
  rw [stoi_ok, StartsWithInt, startsWithNumber_iff]
  unfold INT_MIN INT_MAX
  constructor
  · rintro ⟨h1, h2, h3, h4⟩
    exact ⟨⟨h1, h2⟩, by omega, by omega⟩
  · rintro ⟨⟨h1, h2⟩, h3, h4⟩
    exact ⟨h1, h2, by omega, by omega⟩

theorem checkRange_error {value : Int} {e : Exn} :
    checkRange value = .error e ↔
      e = .out_of_range ∧ (value < INT_MIN ∨ INT_MAX < value) := by
  unfold checkRange
  by_cases hr : value < INT_MIN ∨ INT_MAX < value
  · rw [if_pos hr]
    constructor
    · intro h
      simp only [Except.error.injEq] at h
      exact ⟨h.symm, hr⟩
    · rintro ⟨h, _⟩
      rw [h]
  · rw [if_neg hr]
    constructor
    · intro h; cases h
    · rintro ⟨_, h⟩
      exact absurd h hr

/-- The exception of `stoi` is the one the standard prescribes: `stoi` throws
`e` on `s` exactly when `StoiRaises s e`. -/
theorem stoi_error_iff (s : Str) (e : Exn) :
    stoi s = .error e ↔ StoiRaises s e := by
  by_cases hd : (stripSign (s.dropWhile isspace)).2.takeWhile isdigit = []
  · have hnone : ¬ ∃ n, StartsWithNumber s n := by
      rintro ⟨n, hn⟩
      exact ((startsWithNumber_iff s n).mp hn).1 hd
    have hstoi : stoi s = .error .invalid_argument := by
      unfold stoi
      simp [hd]
    rw [hstoi]
    unfold StoiRaises
    constructor
    · intro h
      simp only [Except.error.injEq] at h
      exact Or.inl ⟨h.symm, hnone⟩
    · rintro (⟨h, _⟩ | ⟨_, n, hn, _⟩)
      · rw [h]
      · exact absurd ⟨n, hn⟩ hnone
  · have he : ((stripSign (s.dropWhile isspace)).2.takeWhile isdigit).isEmpty = false := by
      cases hh : (stripSign (s.dropWhile isspace)).2.takeWhile isdigit with
      | nil => exact absurd hh hd
      | cons c t => rfl
    have hstoi : stoi s = checkRange (applySign (stripSign (s.dropWhile isspace)).1
        (accDigits 0 ((stripSign (s.dropWhile isspace)).2.takeWhile isdigit))) := by
      unfold stoi
      simp only [he, Bool.false_eq_true, if_false]
    have hnum : StartsWithNumber s (applySign (stripSign (s.dropWhile isspace)).1
        (accDigits 0 ((stripSign (s.dropWhile isspace)).2.takeWhile isdigit))) :=
      (startsWithNumber_iff s _).mpr ⟨hd, rfl⟩
    rw [hstoi, checkRange_error]
    unfold StoiRaises INT_MIN INT_MAX
    constructor
    · rintro ⟨h1, h2⟩
      exact Or.inr ⟨h1, _, hnum, by omega⟩
    · rintro (⟨_, hno⟩ | ⟨h1, n, hn, hr⟩)
      · exact absurd ⟨_, hnum⟩ hno
      · rw [((startsWithNumber_iff s n).mp hn).2] at hr
        exact ⟨h1, by omega⟩

/-! ### Which lines `getTimeSpan` rejects -/

theorem spanOf_cases (a b : Str) :
    (∃ e, spanOf a b = .error e)
    ∨ ∃ first second, spanOf a b = .ok (some (first, second)) := by
  unfold spanOf
  cases stoi a with
  | error e => exact Or.inl ⟨e, rfl⟩
  | ok x =>
    cases stoi b with
    | error e => exact Or.inl ⟨e, rfl⟩
    | ok y => exact Or.inr ⟨x, y, rfl⟩

theorem getTimeSpan_cases {line : Str} (hne : line ≠ []) :
    (∃ e, getTimeSpan line = .error e)
    ∨ ∃ first second, getTimeSpan line = .ok (some (first, second)) := by
  rcases line_cases line with hno | ⟨a, sep, b, hs, ha, hsep⟩
  · exact Or.inl ⟨_, getTimeSpan_no_sep hne hno⟩
  · subst hs
    rw [getTimeSpan_split a b sep ha hsep]
    exact spanOf_cases a b

theorem getTimeSpan_span_iff (line : Str) (first second : Int) :
    getTimeSpan line = .ok (some (first, second)) ↔ DenotesSpan line first second := by
  constructor
  · intro h
    obtain ⟨a, sep, b, hs, ha, hsep, hsa, hsb⟩ := getTimeSpan_some h
    refine ⟨a, sep, b, hs, ?_, by simpa using hsep,
      (stoi_ok_iff_startsWithInt a first).mp hsa,
      (stoi_ok_iff_startsWithInt b second).mp hsb⟩
    intro c hc
    have := ha c hc
    simpa using this
  · rintro ⟨a, sep, b, hs, ha, hsep, hsa, hsb⟩
    subst hs
    have ha1 : ∀ c ∈ a, c ∉ ['-', ' '] := by
      intro c hc
      have := ha c hc
      simpa using this
    rw [getTimeSpan_split a b sep ha1 (by simpa using hsep)]
    simp [spanOf, (stoi_ok_iff_startsWithInt a first).mpr hsa,
      (stoi_ok_iff_startsWithInt b second).mpr hsb]

theorem spanOf_error {a b : Str} {e : Exn} :
    spanOf a b = .error e ↔
      stoi a = .error e ∨ ((∃ v, stoi a = .ok v) ∧ stoi b = .error e) := by
  unfold spanOf
  cases ha : stoi a with
  | error e1 => simp
  | ok x =>
    cases hb : stoi b with
    | error e2 => simp
    | ok y => simp

theorem getTimeSpan_runtime_error {line : Str} {what : Str}
    (h : getTimeSpan line = .error (.runtime_error what)) :
    (∀ c ∈ line, c ≠ '-' ∧ c ≠ ' ') ∧ what = wrongFormat line := by
  have hne : line ≠ [] := by
    rintro rfl
    rw [getTimeSpan_nil] at h
    cases h
  rcases line_cases line with hno | ⟨a, sep, b, hs, ha, hsep⟩
  · rw [getTimeSpan_no_sep hne hno] at h
    simp only [Except.error.injEq, Exn.runtime_error.injEq] at h
    refine ⟨?_, h.symm⟩
    intro c hc
    have := hno c hc
    simpa using this
  · subst hs
    rw [getTimeSpan_split a b sep ha hsep, spanOf_error] at h
    rcases h with h | ⟨_, h⟩
    · rcases (stoi_error_iff a _).mp h with ⟨h1, _⟩ | ⟨h1, _⟩ <;> cases h1
    · rcases (stoi_error_iff b _).mp h with ⟨h1, _⟩ | ⟨h1, _⟩ <;> cases h1

/-- C3, as the code has it. A non-empty line never yields the absent span. It
yields the span `(first, second)` exactly when the text before its first
hyphen or space starts with the `int` `first` and the text after it starts
with the `int` `second` (whatever follows the digits is ignored), and every
other non-empty line raises an error. The error is the `runtime_error` with
the wrong-format message exactly when the line holds no hyphen and no space;
on a line cut at its first hyphen or space it is the exception of `stoi` on
one of the two sides (`invalid_argument` for a side that starts with no
number, `out_of_range` for a number that is no `int`), and when only one side
is at fault it is the exception of that side. -/
theorem getTimeSpan_rejects_iff (line : Str) (hne : line ≠ []) :
    getTimeSpan line ≠ .ok none
    ∧ (∀ first second,
        getTimeSpan line = .ok (some (first, second)) ↔ DenotesSpan line first second)
    ∧ ((∃ e, getTimeSpan line = .error e) ↔
        ¬ ∃ first second, DenotesSpan line first second)
    ∧ ((∀ c ∈ line, c ≠ '-' ∧ c ≠ ' ') ↔
        getTimeSpan line = .error (.runtime_error (wrongFormat line)))
    ∧ (∀ what, getTimeSpan line = .error (.runtime_error what) →
        what = wrongFormat line)
    ∧ (∀ a sep b e, line = a ++ sep :: b → (∀ c ∈ a, c ≠ '-' ∧ c ≠ ' ') →
        (sep = '-' ∨ sep = ' ') →
        (getTimeSpan line = .error e → StoiRaises a e ∨ StoiRaises b e)
        ∧ ((∃ v, StartsWithInt b v) → (getTimeSpan line = .error e ↔ StoiRaises a e))
        ∧ ((∃ v, StartsWithInt a v) → (getTimeSpan line = .error e ↔ StoiRaises b e))) := by
  refine ⟨?_, getTimeSpan_span_iff line, ?_, ?_, ?_, ?_⟩
  · intro h
    rcases getTimeSpan_cases hne with ⟨e, he⟩ | ⟨x, y, hxy⟩
    · rw [he] at h; cases h
    · rw [hxy] at h; cases h
  · constructor
    · rintro ⟨e, he⟩ ⟨x, y, hxy⟩
      rw [(getTimeSpan_span_iff line x y).mpr hxy] at he
      cases he
    · intro hno
      rcases getTimeSpan_cases hne with h | ⟨x, y, hxy⟩
      · exact h
      · exact absurd ⟨x, y, (getTimeSpan_span_iff line x y).mp hxy⟩ hno
  · constructor
    · intro hno
      apply getTimeSpan_no_sep hne
      intro c hc
      have := hno c hc
      simpa using this
    · intro h
      exact (getTimeSpan_runtime_error h).1
  · intro what h
    exact (getTimeSpan_runtime_error h).2
  · intro a sep b e hs ha hsep
    subst hs
    have ha1 : ∀ c ∈ a, c ∉ ['-', ' '] := by
      intro c hc
      have := ha c hc
      simpa using this
    rw [getTimeSpan_split a b sep ha1 (by simpa using hsep), spanOf_error,
      stoi_error_iff a e, stoi_error_iff b e]
    refine ⟨?_, ?_, ?_⟩
    · rintro (h | ⟨_, h⟩)
      · exact Or.inl h
      · exact Or.inr h
    · rintro ⟨v, hv⟩
      have hb := (stoi_ok_iff_startsWithInt b v).mpr hv
      constructor
      · rintro (h | ⟨_, h⟩)
        · exact h
        · rw [← stoi_error_iff, hb] at h
          cases h
      · intro h
        exact Or.inl h
    · rintro ⟨v, hv⟩
      have hav := (stoi_ok_iff_startsWithInt a v).mpr hv
      constructor
      · rintro (h | ⟨_, h⟩)
        · rw [← stoi_error_iff, hav] at h
          cases h
        · exact h
      · intro h
        exact Or.inr ⟨⟨v, hav⟩, h⟩

theorem getTimeSpan_rejects_iff_witness :
    "5-".toList ≠ []
    ∧ (getTimeSpan "5-".toList = .error .invalid_argument ↔
        StoiRaises [] .invalid_argument) :=
  ⟨by decide,
    ((getTimeSpan_rejects_iff "5-".toList (by decide)).2.2.2.2.2
      "5".toList '-' [] .invalid_argument rfl (by decide) (Or.inl rfl)).2.2
      ⟨5, (stoi_ok_iff_startsWithInt "5".toList 5).mp (by decide)⟩⟩

/-- C3 fails as stated: none of `"10-20abc"`, `"1.5-2.5"`, `"10--20"` and
`"10  20"` is digits, one separator, digits, and each of them yields a span. -/
theorem getTimeSpan_accepts_malformed :
    isSpanText "10-20abc".toList = false
    ∧ getTimeSpan "10-20abc".toList = .ok (some (10, 20))
    ∧ isSpanText "1.5-2.5".toList = false
    ∧ getTimeSpan "1.5-2.5".toList = .ok (some (1, 2))
    ∧ isSpanText "10--20".toList = false
    ∧ getTimeSpan "10--20".toList = .ok (some (10, -20))
    ∧ isSpanText "10  20".toList = false
    ∧ getTimeSpan "10  20".toList = .ok (some (10, 20)) := by
  decide

/-- The reference format accepts what the help text describes and none of the
seven examples of malformed text. -/
theorem isSpanText_examples :
    isSpanText "10-20".toList = true ∧ isSpanText "10 20".toList = true
    ∧ isSpanText "1020".toList = false ∧ isSpanText "10-20abc".toList = false
    ∧ isSpanText "1.5-2.5".toList = false ∧ isSpanText "10--20".toList = false
    ∧ isSpanText "10  20".toList = false ∧ isSpanText "-5".toList = false
    ∧ isSpanText "5-".toList = false := by
  decide

/-- The remaining examples of C3 do raise an error: no separator is the
`runtime_error`, a missing number is the `invalid_argument` of `stoi`, a
number that is no `int` is its `out_of_range`. -/
theorem getTimeSpan_rejected_examples :
    getTimeSpan "1020".toList = .error (.runtime_error (wrongFormat "1020".toList))
    ∧ getTimeSpan "-5".toList = .error .invalid_argument
    ∧ getTimeSpan "5-".toList = .error .invalid_argument
    ∧ getTimeSpan "1-2147483648".toList = .error .out_of_range
    ∧ getTimeSpan "1--2147483648".toList = .ok (some (1, -2147483648)) := by
  decide

/-! ### Time spans read from a `.txt` file -/

theorem haltOf_isFailure (e : Exn) : (haltOf e).isFailure = true := by
  cases e with
  | runtime_error what => show (exitStatus (-1) != 0) = true; decide
  | invalid_argument => rfl
  | out_of_range => rfl

theorem loop_cons_ok {line : Str} {rest : List Str} {times : List (Option IPair)}
    {i : Nat} {v : Option IPair} (hi : i < times.length)
    (hv : getTimeSpan line = .ok v) :
    read_time_spans_loop (line :: rest) times i
      = read_time_spans_loop rest (times.set i v) (i + 1) := by
  rw [read_time_spans_loop]
  simp only [ge_iff_le, not_le.mpr hi, if_false, hv, vset, hi, if_true]

theorem loop_cons_error {line : Str} {rest : List Str} {times : List (Option IPair)}
    {i : Nat} {e : Exn} (hi : i < times.length)
    (he : getTimeSpan line = .error e) :
    read_time_spans_loop (line :: rest) times i = .error (haltOf e) := by
  rw [read_time_spans_loop]
  simp only [ge_iff_le, not_le.mpr hi, if_false, he]
  cases e <;> rfl

theorem loop_full (lines : List Str) {times : List (Option IPair)} {i : Nat}
    (hi : times.length ≤ i) : read_time_spans_loop lines times i = .ok times := by
  cases lines with
  | nil => rfl
  | cons line rest =>
    rw [read_time_spans_loop]
    simp [hi]

theorem loop_ok (lines : List Str) :
    ∀ (times : List (Option IPair)) (i : Nat),
      (∀ j line, lines[j]? = some line → i + j < times.length →
        ∃ v, getTimeSpan line = .ok v) →
      ∃ out, read_time_spans_loop lines times i = .ok out
        ∧ out.length = times.length
        ∧ (∀ j line, lines[j]? = some line → i + j < times.length →
            ∃ v, getTimeSpan line = .ok v ∧ out[i + j]? = some v)
        ∧ (∀ m, m < i ∨ i + lines.length ≤ m → out[m]? = times[m]?) := by
  induction lines with
  | nil =>
    intro times i _
    exact ⟨times, rfl, rfl, by intro j line h; simp at h, fun _ _ => rfl⟩
  | cons line rest ih =>
    intro times i hparse
    by_cases hi : i < times.length
    · obtain ⟨v, hv⟩ := hparse 0 line (by simp) (by simpa using hi)
      have hrest : ∀ j l, rest[j]? = some l → i + 1 + j < (times.set i v).length →
          ∃ w, getTimeSpan l = .ok w := by
        intro j l hl hj
        refine hparse (j + 1) l (by simpa using hl) ?_
        rw [List.length_set] at hj
        omega
      obtain ⟨out, hout, hlen, hent, hkeep⟩ := ih (times.set i v) (i + 1) hrest
      refine ⟨out, ?_, ?_, ?_, ?_⟩
      · rw [loop_cons_ok hi hv, hout]
      · rw [hlen, List.length_set]
      · intro j l hl hj
        cases j with
        | zero =>
          simp only [List.getElem?_cons_zero, Option.some.injEq] at hl
          subst hl
          refine ⟨v, hv, ?_⟩
          rw [Nat.add_zero, hkeep i (Or.inl (Nat.lt_succ_self i))]
          simp [hi]
        | succ j =>
          simp only [List.getElem?_cons_succ] at hl
          obtain ⟨w, hw, hget⟩ := hent j l hl (by rw [List.length_set]; omega)
          refine ⟨w, hw, ?_⟩
          rw [← hget]
          congr 1
          omega
      · intro m hm
        have hne : i ≠ m := by
          rcases hm with h | h
          · omega
          · simp only [List.length_cons] at h; omega
        rw [hkeep m (by
          rcases hm with h | h
          · exact Or.inl (by omega)
          · simp only [List.length_cons] at h; exact Or.inr (by omega))]
        exact List.getElem?_set_ne hne
    · have hfull := loop_full (line :: rest) (not_lt.mp hi)
      refine ⟨times, hfull, rfl, ?_, fun _ _ => rfl⟩
      intro j l _ hj
      omega

theorem loop_first_error (pre : List Str) :
    ∀ (times : List (Option IPair)) (i : Nat) (bad : Str) (post : List Str) (e : Exn),
      (∀ l ∈ pre, ∃ v, getTimeSpan l = .ok v) →
      i + pre.length < times.length →
      getTimeSpan bad = .error e →
      read_time_spans_loop (pre ++ bad :: post) times i = .error (haltOf e) := by
  induction pre with
  | nil =>
    intro times i bad post e _ hi he
    exact loop_cons_error (by simpa using hi) he
  | cons line rest ih =>
    intro times i bad post e hpre hi he
    obtain ⟨v, hv⟩ := hpre line (List.mem_cons_self _ _)
    simp only [List.length_cons] at hi
    rw [List.cons_append, loop_cons_ok (by omega) hv]
    exact ih (times.set i v) (i + 1) bad post e
      (fun l hl => hpre l (List.mem_cons_of_mem _ hl))
      (by rw [List.length_set]; omega) he

theorem loop_length (lines : List Str) :
    ∀ (times out : List (Option IPair)) (i : Nat),
      read_time_spans_loop lines times i = .ok out → out.length = times.length := by
  induction lines with
  | nil =>
    intro times out i h
    simp only [read_time_spans_loop, Except.ok.injEq] at h
    rw [← h]
  | cons line rest ih =>
    intro times out i h
    by_cases hi : i < times.length
    · cases hv : getTimeSpan line with
      | error e =>
        rw [loop_cons_error hi hv] at h
        cases h
      | ok v =>
        rw [loop_cons_ok hi hv] at h
        rw [ih _ out (i + 1) h, List.length_set]
    · rw [loop_full (line :: rest) (not_lt.mp hi)] at h
      simp only [Except.ok.injEq] at h
      rw [← h]

/-- Whenever `readTimeSpans(fn, N)` returns, it returns exactly `N` entries:
the batch loop then finds a time-span entry for every feature. -/
theorem readTimeSpans_length (fs : Files) (fn : Str) (N : Nat)
    (times : List (Option IPair)) (h : readTimeSpans fs fn N = .ok times) :
    times.length = N := by
  unfold readTimeSpans at h
  simp only at h
  cases hext : extension fn with
  | error e => rw [hext] at h; cases h
  | ok ext =>
    rw [hext] at h
    simp only at h
    by_cases htxt : ext = ".txt".toList
    · rw [if_pos htxt] at h
      unfold read_time_spans at h
      cases hfile : fs fn with
      | none => rw [hfile] at h; cases h
      | some lines =>
        rw [hfile] at h
        simpa using loop_length lines _ times 0 h
    · rw [if_neg htxt] at h
      cases hv : getTimeSpan fn with
      | error e => rw [hv] at h; cases h
      | ok v =>
        rw [hv] at h
        simp only [vset] at h
        split at h
        · simp only [Except.ok.injEq] at h
          rw [← h]
          simp
        · cases h

theorem loop_some_error (lines : List Str) :
    ∀ (times : List (Option IPair)) (i : Nat),
      (∃ j line e, lines[j]? = some line ∧ i + j < times.length
        ∧ getTimeSpan line = .error e) →
      ∃ h, read_time_spans_loop lines times i = .error h ∧ h.isFailure = true := by
  induction lines with
  | nil =>
    rintro times i ⟨j, line, e, hl, _, _⟩
    simp at hl
  | cons line rest ih =>
    rintro times i ⟨j, l, e, hl, hj, he⟩
    have hi : i < times.length := by omega
    cases hv : getTimeSpan line with
    | error e1 => exact ⟨haltOf e1, loop_cons_error hi hv, haltOf_isFailure e1⟩
    | ok v =>
      rw [loop_cons_ok hi hv]
      cases j with
      | zero =>
        simp only [List.getElem?_cons_zero, Option.some.injEq] at hl
        subst hl
        rw [hv] at he
        cases he
      | succ j =>
        simp only [List.getElem?_cons_succ] at hl
        exact ih (times.set i v) (i + 1)
          ⟨j, l, e, hl, by rw [List.length_set]; omega, he⟩

theorem readTimeSpans_txt {fs : Files} {fn : Str} {lines : List Str} (N : Nat)
    (hext : extension fn = .ok ".txt".toList) (hfile : fs fn = some lines) :
    readTimeSpans fs fn N
      = read_time_spans_loop lines (List.replicate N none) 0 := by
  unfold readTimeSpans read_time_spans
  simp only [hext, hfile, if_true]

/-- C9, as the code has it. Let `fn` end in `.txt` and name a file with the
given lines, and let `N` be the feature count.
* If `getTimeSpan` returns on each of the first `N` lines, `readTimeSpans`
  returns exactly `N` entries, entry `i` being `getTimeSpan` of line `i` for
  every line `i < N`, and `NULL` for every `i` from the number of lines up to
  `N`; lines beyond the `N`-th are not looked at.
* If `getTimeSpan` raises an error on one of the first `N` lines, the program
  stops with a failure status.
* If the first such line has no hyphen and no space, the stop is `exit(-1)`. -/
theorem readTimeSpans_txt_file (fs : Files) (fn : Str) (lines : List Str) (N : Nat)
    (hext : extension fn = .ok ".txt".toList) (hfile : fs fn = some lines) :
    ((∀ i line, lines[i]? = some line → i < N → ∃ v, getTimeSpan line = .ok v) →
      ∃ times, readTimeSpans fs fn N = .ok times ∧ times.length = N
        ∧ (∀ i line, lines[i]? = some line → i < N →
            ∃ v, getTimeSpan line = .ok v ∧ times[i]? = some v)
        ∧ (∀ i, lines.length ≤ i → i < N → times[i]? = some none))
    ∧ ((∃ i line e, lines[i]? = some line ∧ i < N ∧ getTimeSpan line = .error e) →
        ∃ h, readTimeSpans fs fn N = .error h ∧ h.isFailure = true)
    ∧ (∀ pre bad post, lines = pre ++ bad :: post → pre.length < N →
        (∀ l ∈ pre, ∃ v, getTimeSpan l = .ok v) →
        bad ≠ [] → (∀ c ∈ bad, c ≠ '-' ∧ c ≠ ' ') →
        readTimeSpans fs fn N = .error (.exit (-1)) ∧ exitStatus (-1) ≠ 0) := by
  rw [readTimeSpans_txt N hext hfile]
  refine ⟨?_, ?_, ?_⟩
  · intro hparse
    obtain ⟨out, hout, hlen, hent, hkeep⟩ :=
      loop_ok lines (List.replicate N none) 0 (by
        intro j line hl hj
        exact hparse j line hl (by simpa using hj))
    refine ⟨out, hout, by simpa using hlen, ?_, ?_⟩
    · intro i line hl hi
      obtain ⟨v, hv, hget⟩ := hent i line hl (by simpa using hi)
      exact ⟨v, hv, by simpa using hget⟩
    · intro i hk hi
      rw [hkeep i (Or.inr (by omega))]
      simp [hi]
  · rintro ⟨i, line, e, hl, hi, he⟩
    exact loop_some_error lines (List.replicate N none) 0
      ⟨i, line, e, hl, by simpa using hi, he⟩
  · intro pre bad post hlines hpre hparse hne hnosep
    have hno : ∀ c ∈ bad, c ∉ ['-', ' '] := by
      intro c hc
      have := hnosep c hc
      simpa using this
    have hbad := getTimeSpan_no_sep hne hno
    rw [hlines, loop_first_error pre (List.replicate N none) 0 bad post _ hparse
      (by simpa using hpre) hbad]
    exact ⟨rfl, by decide⟩

theorem readTimeSpans_txt_file_witness :
    ∃ times, readTimeSpans (fun _ => some ["1-2".toList, [], "3 4".toList, "zz".toList])
          "t.txt".toList 3 = .ok times
      ∧ times.length = 3
      ∧ (∀ i line, ["1-2".toList, [], "3 4".toList, "zz".toList][i]? = some line → i < 3 →
          ∃ v, getTimeSpan line = .ok v ∧ times[i]? = some v)
      ∧ (∀ i, ["1-2".toList, [], "3 4".toList, "zz".toList].length ≤ i → i < 3 →
          times[i]? = some none) :=
  (readTimeSpans_txt_file
    (fun _ => some ["1-2".toList, [], "3 4".toList, "zz".toList]) "t.txt".toList
    ["1-2".toList, [], "3 4".toList, "zz".toList] 3 (by decide) rfl).1 (by
      intro i line hl hi
      have hcases : i = 0 ∨ i = 1 ∨ i = 2 := by omega
      rcases hcases with rfl | rfl | rfl <;>
        simp only [List.getElem?_cons_zero, List.getElem?_cons_succ, Option.some.injEq] at hl <;>
        subst hl <;>
        first
          | exact ⟨some (1, 2), by decide⟩
          | exact ⟨none, by decide⟩
          | exact ⟨some (3, 4), by decide⟩)

/-- C9 fails as stated: the line `"5-"` holds a hyphen, yet `readTimeSpans`
does not return an entry for it; the `invalid_argument` of `stoi` is not a
`runtime_error`, is not caught, and ends the program. -/
theorem readTimeSpans_txt_uncaught :
    '-' ∈ "5-".toList
    ∧ readTimeSpans (fun _ => some ["5-".toList]) "t.txt".toList 1
        = .error (.uncaught .invalid_argument)
    ∧ ¬ ∃ times, readTimeSpans (fun _ => some ["5-".toList]) "t.txt".toList 1
        = .ok times := by
  refine ⟨by decide, by decide, ?_⟩
  rintro ⟨times, h⟩
  have h1 : readTimeSpans (fun _ => some ["5-".toList]) "t.txt".toList 1
      = .error (.uncaught .invalid_argument) := by decide
  rw [h1] at h
  cases h

/-! ### The batch loop -/

theorem report_default {R P F : Type} (q_name d_name : Str) (st : Loop R P F) :
    report false q_name d_name st
      = { st with out := st.out ++
            [match st.hypo_score with
              | [] => Event.print .negFloatInf
              | best :: _ => Event.print (.score best)] } := by
  unfold report
  cases h : st.hypo_score with
  | nil => simp
  | cons best rest => simp [vget]

/-- C5: in the default mode the driver reports, for the pair `(i, j)`, negative
infinity when the score list the engine returned for that pair is empty and
the first score of the list otherwise; negative infinity is no score, zero
included, an empty list is never indexed, and the program does not stop. -/
theorem pairBody_reports_best {R P F : Type} (eng : Engine R P F) (opts : Options F)
    (q_fnames d_fnames : List Str) (q_times d_times : List (Option IPair))
    (i j : Nat) (st : Loop R P F) (q_name d_name : Str) (q_time d_time : Option IPair)
    (hdetail : opts.detail = false)
    (hq : q_fnames[i]? = some q_name) (hd : d_fnames[j]? = some d_name)
    (hqt : q_times[i]? = some q_time) (hdt : d_times[j]? = some d_time) :
    (pairBody eng opts q_fnames d_fnames q_times d_times i j st).halted = st.halted
    ∧ (∀ zero : F, Printed.negFloatInf ≠ Printed.score zero)
    ∧ (pairBody eng opts q_fnames d_fnames q_times d_times i j st).out
      = st.out ++
        [.loadParm true q_name (loadArgs opts),
         .loadParm false d_name (loadArgs opts),
         .runDtw i j st.hypo_score st.hypo_bound q_time d_time,
         match (eng.run st.runner (eng.LoadParm st.q_parm q_name (loadArgs opts))
            (eng.LoadParm st.d_parm d_name (loadArgs opts)) q_time d_time
            st.hypo_score st.hypo_bound).2.1 with
          | [] => .print .negFloatInf
          | best :: _ => .print (.score best)] := by
  refine ⟨?_, ?_, ?_⟩
  · unfold pairBody
    simp only [vget, hq, hd, hqt, hdt, hdetail, report_default]
    cases hh : st.halted <;> simp [hh]
  · intro zero h
    cases h
  · unfold pairBody
    simp only [vget, hq, hd, hqt, hdt, hdetail, report_default]
    cases hh : st.halted <;> simp [hh]

theorem pairBody_reports_best_witness :
    (pairBody sampleEngine (sampleOptions 1) ["q".toList] ["d".toList, "e".toList]
        [none] [none, some (2, 5)] 0 1
        { runner := (), q_parm := (), d_parm := (), hypo_score := [], hypo_bound := [],
          out := [], halted := none }).halted = none
    ∧ (∀ zero : Int, Printed.negFloatInf ≠ Printed.score zero)
    ∧ (pairBody sampleEngine (sampleOptions 1) ["q".toList] ["d".toList, "e".toList]
        [none] [none, some (2, 5)] 0 1
        { runner := (), q_parm := (), d_parm := (), hypo_score := [], hypo_bound := [],
          out := [], halted := none }).out
      = [.loadParm true "q".toList none, .loadParm false "e".toList none,
         .runDtw 0 1 [] [] none (some (2, 5)), .print (.score 7)] :=
  pairBody_reports_best sampleEngine (sampleOptions 1) ["q".toList]
    ["d".toList, "e".toList] [none] [none, some (2, 5)] 0 1
    { runner := (), q_parm := (), d_parm := (), hypo_score := [], hypo_bound := [],
      out := [], halted := none }
    "q".toList "e".toList none (some (2, 5)) rfl rfl rfl rfl rfl

theorem report_keeps {R P F : Type} (seg : Option (SegOpts F)) (detail : Bool)
    (q_name d_name : Str) (st : Loop R P F)
    (h : ∀ e ∈ st.out, e.startsFresh ∧ e.loadsWith seg) :
    ∀ e ∈ (report detail q_name d_name st).out, e.startsFresh ∧ e.loadsWith seg := by
  unfold report
  split
  · intro e he
    simp only [List.mem_append, List.mem_singleton] at he
    rcases he with he | rfl
    · exact h e he
    · exact ⟨trivial, trivial⟩
  · split
    · intro e he
      simp only [List.mem_append, List.mem_singleton] at he
      rcases he with he | rfl
      · exact h e he
      · exact ⟨trivial, trivial⟩
    · split
      · intro e he
        simp only [List.mem_append, List.mem_singleton] at he
        rcases he with he | rfl
        · exact h e he
        · exact ⟨trivial, trivial⟩
      · exact h

theorem pairBody_inv {R P F : Type} (eng : Engine R P F) (opts : Options F)
    (q_fnames d_fnames : List Str) (q_times d_times : List (Option IPair))
    (i j : Nat) (st : Loop R P F) (hrun : st.halted = none)
    (hinv : LoopInv (loadArgs opts) st) :
    LoopInv (loadArgs opts) (pairBody eng opts q_fnames d_fnames q_times d_times i j st) := by
  obtain ⟨hempty, hout⟩ := hinv
  obtain ⟨hs, hb⟩ := hempty hrun
  have hload : ∀ (isQuery : Bool) (name : Str),
      (Event.loadParm isQuery name (loadArgs opts)).startsFresh
      ∧ (Event.loadParm isQuery name (loadArgs opts)).loadsWith (loadArgs opts) :=
    fun _ _ => ⟨trivial, rfl⟩
  unfold pairBody
  cases vget q_fnames i with
  | error h => exact ⟨by simp, hout⟩
  | ok q_name =>
    have hout1 : ∀ e ∈ st.out ++ [Event.loadParm true q_name (loadArgs opts)],
        e.startsFresh ∧ e.loadsWith (loadArgs opts) := by
      intro e he
      simp only [List.mem_append, List.mem_singleton] at he
      rcases he with he | rfl
      · exact hout e he
      · exact hload _ _
    cases vget d_fnames j with
    | error h => exact ⟨by simp, hout1⟩
    | ok d_name =>
      have hout2 : ∀ e ∈ st.out ++ [Event.loadParm true q_name (loadArgs opts)]
          ++ [Event.loadParm false d_name (loadArgs opts)],
          e.startsFresh ∧ e.loadsWith (loadArgs opts) := by
        intro e he
        simp only [List.mem_append, List.mem_singleton] at he
        rcases he with he | rfl
        · exact hout1 e (by simpa using he)
        · exact hload _ _
      cases vget q_times i with
      | error h => exact ⟨by simp, hout2⟩
      | ok q_time =>
        cases vget d_times j with
        | error h => exact ⟨by simp, hout2⟩
        | ok d_time =>
          have hout3 : ∀ e ∈ st.out ++ [Event.loadParm true q_name (loadArgs opts),
              Event.loadParm false d_name (loadArgs opts),
              Event.runDtw i j st.hypo_score st.hypo_bound q_time d_time],
              e.startsFresh ∧ e.loadsWith (loadArgs opts) := by
            intro e he
            simp only [List.mem_append, List.mem_cons, List.mem_singleton,
              List.not_mem_nil, or_false] at he
            rcases he with he | rfl | rfl | rfl
            · exact hout e he
            · exact hload _ _
            · exact hload _ _
            · exact ⟨⟨hs, hb⟩, trivial⟩
          simp only [List.append_assoc, List.cons_append, List.nil_append]
          split
          · rename_i h hhalt
            refine ⟨?_, report_keeps _ _ _ _ _ hout3⟩
            intro hn
            rw [hhalt] at hn
            cases hn
          · exact ⟨fun _ => ⟨rfl, rfl⟩, report_keeps _ _ _ _ _ hout3⟩

theorem forLoop_inv {R P F : Type} (Inv : Loop R P F → Prop)
    (body : Nat → Loop R P F → Loop R P F)
    (hbody : ∀ k st, st.halted = none → Inv st → Inv (body k st)) :
    ∀ (n k : Nat) (st : Loop R P F), Inv st → Inv (forLoop body n k st) := by
  intro n
  induction n with
  | zero => intro k st h; exact h
  | succ n ih =>
    intro k st h
    unfold forLoop
    cases hh : st.halted with
    | some x => exact h
    | none => exact ih (k + 1) (body k st) (hbody k st hh h)

theorem rowBody_inv {R P F : Type} (eng : Engine R P F) (opts : Options F)
    (q_fnames d_fnames : List Str) (q_times d_times : List (Option IPair))
    (i : Nat) (st : Loop R P F) (hinv : LoopInv (loadArgs opts) st) :
    LoopInv (loadArgs opts) (rowBody eng opts q_fnames d_fnames q_times d_times i st) := by
  have h1 := forLoop_inv (LoopInv (loadArgs opts))
    (pairBody eng opts q_fnames d_fnames q_times d_times i)
    (fun k s hs hi => pairBody_inv eng opts q_fnames d_fnames q_times d_times i k s hs hi)
    d_fnames.length 0 st hinv
  unfold rowBody
  simp only
  split
  · exact h1
  · rename_i hh
    refine ⟨fun _ => h1.1 hh, ?_⟩
    intro e he
    simp only [List.mem_append, List.mem_singleton] at he
    rcases he with he | rfl
    · exact h1.2 e he
    · exact ⟨trivial, trivial⟩

theorem batchLoop_inv {R P F : Type} (eng : Engine R P F) (opts : Options F)
    (runner : R) (parm0 : P)
    (q_fnames d_fnames : List Str) (q_times d_times : List (Option IPair)) :
    LoopInv (loadArgs opts)
      (batchLoop eng opts runner parm0 q_fnames d_fnames q_times d_times) := by
  unfold batchLoop
  apply forLoop_inv (LoopInv (loadArgs opts))
  · intro k st _ hinv
    exact rowBody_inv eng opts q_fnames d_fnames q_times d_times k st hinv
  · exact ⟨fun _ => ⟨rfl, rfl⟩, by intro e he; simp at he⟩

/-- Whatever the engine does with the two result lists, and whether or not the
loop runs to its end, every engine call that is made finds both lists empty. -/
theorem batchLoop_starts_fresh {R P F : Type} (eng : Engine R P F) (opts : Options F)
    (runner : R) (parm0 : P)
    (q_fnames d_fnames : List Str) (q_times d_times : List (Option IPair)) :
    AllFresh (batchLoop eng opts runner parm0 q_fnames d_fnames q_times d_times).out :=
  fun e he =>
    ((batchLoop_inv eng opts runner parm0 q_fnames d_fnames q_times d_times).2 e he).1

/-- A run with an engine that keeps a state of its own: the driver still calls
it on empty lists for every pair, and each score is the engine's call count,
which the engine carries in its runner state and not in the lists. -/
theorem batchLoop_counting_run :
    (batchLoop countingEngine (sampleOptions 1) 100 ()
      ["q".toList] ["d".toList, "e".toList] [none] [none, none]).out
    = [.loadParm true "q".toList none, .loadParm false "d".toList none,
       .runDtw 0 0 [] [] none none, .print (.score 100),
       .loadParm true "q".toList none, .loadParm false "e".toList none,
       .runDtw 0 1 [] [] none none, .print (.score 101),
       .endl] := by
  decide

/-- A run of the batch loop on two queries and two documents with an engine
that appends to the lists it is given: four engine calls, each from empty
lists, each followed by the best score of that pair. -/
theorem batchLoop_sample_run :
    (batchLoop sampleEngine (sampleOptions 1) () ()
      ["q".toList, "r".toList] ["d".toList, "e".toList]
      [some (0, 3), none] [some (1, 4), none]).out
    = [.loadParm true "q".toList none, .loadParm false "d".toList none,
       .runDtw 0 0 [] [] (some (0, 3)) (some (1, 4)), .print (.score 7),
       .loadParm true "q".toList none, .loadParm false "e".toList none,
       .runDtw 0 1 [] [] (some (0, 3)) none, .print .negFloatInf,
       .endl,
       .loadParm true "r".toList none, .loadParm false "d".toList none,
       .runDtw 1 0 [] [] none (some (1, 4)), .print (.score 7),
       .loadParm true "r".toList none, .loadParm false "e".toList none,
       .runDtw 1 1 [] [] none none, .print .negFloatInf,
       .endl] := by
  decide

end Dtw
